import Mathlib

/-!
Verification of `create_header_file` from
`python/tvm/contrib/gemmini/helpers.py`.

The function turns a numpy array into a pair of C artifacts: a declaration
file (`<name>.h`, opened in append mode) and a definition file (`<name>.c`,
created once with an include line and then appended to).  We embed the
function shallowly: the tensor is represented by its element kind together
with its flattened (row-major) element list, and the two files at the
derived paths are an explicit `FS` state of two optional file contents
(`none` = the file does not exist).

The float32 branch renders each element with the array library's
scalar-to-text conversion (Python `str` on a numpy float32 scalar), which
is external to the repository; the embedding therefore takes that renderer
as an explicit function parameter `frender` acting on the float's 32-bit
pattern.  The uint32 branch's `str` is decimal rendering, embedded
concretely as `decRender`.  The `debug`/`weights` parameters are modelled
at their defaults (`False`/`None`), under which the debug dump block is
not executed.
-/

namespace Gemmini

/-- Element kinds of the arrays handed to `create_header_file`, holding the
flattened row-major element list.  `f32` elements are identified by their
32-bit pattern (a `Nat`), since the code only ever passes them to the
external scalar-to-text conversion; `i8` elements are signed values,
`u8`/`u32` unsigned values.  `other` stands for any numpy dtype outside the
four supported ones and records the dtype's printed name. -/
inductive TensorData where
  | f32 (elems : List Nat)
  | i8 (elems : List Int)
  | u8 (elems : List Nat)
  | u32 (elems : List Nat)
  | other (dtype : String)
deriving DecidableEq

/-- The two files `create_header_file` touches for a given `name` and
`output_path`: the declaration artifact (`.h`) and the definition artifact
(`.c`).  `none` means the file does not exist. -/
structure FS where
  header : Option String
  source : Option String
deriving DecidableEq

/-- Lowercase hexadecimal digit characters, as produced by Python's
`bytes.hex()`. -/
def hexDigitChar : Nat → Char
  | 0 => '0' | 1 => '1' | 2 => '2' | 3 => '3'
  | 4 => '4' | 5 => '5' | 6 => '6' | 7 => '7'
  | 8 => '8' | 9 => '9' | 10 => 'a' | 11 => 'b'
  | 12 => 'c' | 13 => 'd' | 14 => 'e' | 15 => 'f'
  | _ => '*'

/-- The two-hex-digit lowercase rendering of one byte, as produced both by
`bytes.hex()` on a single byte and by `int.to_bytes(length=1).hex()`. -/
def hexPair (b : Nat) : String :=
  String.mk [hexDigitChar (b / 16 % 16), hexDigitChar (b % 16)]

/-- Little-endian decimal digits of `n`, with explicit fuel (structural
recursion; `fuel ≥ n` is enough since the argument is divided by 10). -/
def decDigitsAux : Nat → Nat → List Nat
  | 0, _ => []
  | _ + 1, 0 => []
  | fuel + 1, n + 1 => ((n + 1) % 10) :: decDigitsAux fuel ((n + 1) / 10)

/-- Decimal rendering of a natural number, as produced by Python's `str`
on a numpy `uint32` scalar (and on `ndarray.size`). -/
def decRender (n : Nat) : String :=
  if n = 0 then "0" else String.mk ((decDigitsAux n n).reverse.map hexDigitChar)

/-- Python's `int.to_bytes(length=1, byteorder="big")`: succeeds exactly
when the integer fits in one unsigned byte, otherwise raises
`OverflowError` (modelled as `none`). -/
def toBytes1 (x : Int) : Option Nat :=
  if 0 ≤ x ∧ x ≤ 255 then some x.toNat else none

/-- The literal written for one element in the int8/uint8 branch.  `v` is
the element value `flatten[i // 2]`, `raw` the corresponding byte of
`tensor_data.tobytes()` whose hex pair is `data_hexstr[i:i+2]`.  For a
negative value the code computes `(~v) + 1` — which is `-v` on unbounded
integers — converts it through `to_bytes(length=1)` (the `none` case is
that call's `OverflowError`) and prefixes `-0x`; otherwise it emits `+0x`
followed by the raw byte's hex pair. -/
def byteLit (v : Int) (raw : Nat) : Option String :=
  if v < 0 then (toBytes1 (-v)).map (fun b => "-0x" ++ hexPair b)
  else some ("+0x" ++ hexPair raw)

/-- The loop of the int8/uint8 branch, one step per byte pair of
`data_hexstr`.  `count` is `len(flatten)`, `j` the element index (the
source's `i` is `2 * j`).  After each literal a comma is written unless
`i == (len(flatten) - 1) * 2`.  The returned Bool is `false` when
`to_bytes` raised; the returned string is exactly what was written before
the raise (the raise happens before anything of the failing element is
written). -/
def byteBodyAux (count : Nat) : Nat → List (Int × Nat) → String × Bool
  | _, [] => ("", true)
  | j, (v, raw) :: rest =>
    match byteLit v raw with
    | none => ("", false)
    | some lit =>
      let sep := if 2 * j ≠ (count - 1) * 2 then "," else ""
      let r := byteBodyAux count (j + 1) rest
      (lit ++ sep ++ r.1, r.2)

/-- The element/raw-byte pairs the byte branch iterates over: for int8 the
raw byte of `tobytes()` is the value's two's-complement byte `v % 256`;
for uint8 it is the value itself (reduced mod 256, a no-op for valid
uint8 data). -/
def bytePairsI8 (es : List Int) : List (Int × Nat) :=
  es.map (fun v => (v, (v % 256).toNat))

/-- See `bytePairsI8`; the uint8 case.  A uint8 element is never negative,
which the embedding records by injecting it into `Int`. -/
def bytePairsU8 (es : List Nat) : List (Int × Nat) :=
  es.map (fun v => (Int.ofNat v, v % 256))

/-- The float32/uint32 loop: every element is rendered and followed by a
comma, the last element included. -/
def writeEach (f : α → String) : List α → String
  | [] => ""
  | e :: es => f e ++ "," ++ writeEach f es

/-- The initializer body written between the opening brace and the closing
sequence, per element kind.  float32/uint32: every element is rendered and
followed by a comma (the last one included).  int8/uint8: the byte loop.
The Bool is `false` when the byte loop raised `OverflowError` mid-write.
The `other` case is unreachable: `create_header_file` asserts on the dtype
before writing anything. -/
def initBody (frender : Nat → String) : TensorData → String × Bool
  | .f32 es => (writeEach frender es, true)
  | .u32 es => (writeEach decRender es, true)
  | .i8 es => byteBodyAux es.length 0 (bytePairsI8 es)
  | .u8 es => byteBodyAux es.length 0 (bytePairsU8 es)
  | .other _ => ("", true)

/-- The dtype dispatch at the top of `create_header_file`: the C type name
and the alignment, or `none` for the `assert False` branch. -/
def typeAlign : TensorData → Option (String × Nat)
  | .f32 _ => some ("float", 32)
  | .i8 _ => some ("int8_t", 16)
  | .u8 _ => some ("uint8_t", 16)
  | .u32 _ => some ("uint32_t", 16)
  | .other _ => none

/-- The dtype name interpolated into the assertion message. -/
def dtypeName : TensorData → String
  | .f32 _ => "float32"
  | .i8 _ => "int8"
  | .u8 _ => "uint8"
  | .u32 _ => "uint32"
  | .other s => s

/-- The total element count, `tensor_data.size`. -/
def tsize : TensorData → Nat
  | .f32 es => es.length
  | .i8 es => es.length
  | .u8 es => es.length
  | .u32 es => es.length
  | .other _ => 0

/-- The two lines appended to the declaration artifact:
`#define <tensor_name>_len <size>` and the extern declaration. -/
def headerLines (tensorName ctype : String) (sz : Nat) : String :=
  "#define " ++ tensorName ++ "_len " ++ decRender sz ++ "\n"
    ++ "extern " ++ ctype ++ " " ++ tensorName ++ "[" ++ tensorName ++ "_len];\n"

/-- The opening line of an initializer block.  Python's `if section` is
string truthiness: the `section(...)` clause is present exactly when the
section string is non-empty. -/
def openingLine (ctype tensorName sect : String) (align : Nat) : String :=
  if sect ≠ "" then
    ctype ++ " " ++ tensorName ++ "[] __attribute__((section(\"" ++ sect
      ++ "\"), aligned(" ++ decRender align ++ "))) = \x7b"
  else
    ctype ++ " " ++ tensorName ++ "[] __attribute__((aligned("
      ++ decRender align ++ "))) = \x7b"

/-- Everything one call appends to the definition artifact: the opening
line, the initializer body, and — when no exception interrupted the loop —
the closing `\x7d;` and a blank line. -/
def sourceBlock (frender : Nat → String) (ctype sect tensorName : String)
    (align : Nat) (td : TensorData) : String × Bool :=
  let (body, ok) := initBody frender td
  (openingLine ctype tensorName sect align ++ body
      ++ (if ok then "\x7d;\n\n" else ""), ok)

/-- The emitter `create_header_file(name, section, tensor_name,
tensor_data, output_path)` with `debug=False`, acting on the two files at
the derived paths.  Order of effects follows the source: dtype dispatch (assertion
failure touches nothing), then the append to the `.h` file (created by
`open(..., "a+")` if absent), then creation of the `.c` file with the
include line if it is not yet a file, then the append of the initializer
block.  An error result carries the file state at raise time. -/
def create_header_file (frender : Nat → String) (name sect tensorName : String)
    (td : TensorData) (outputPath : String) (fs : FS) : Except (String × FS) FS :=
  match typeAlign td with
  | none => .error ("Type " ++ dtypeName td ++ " is not supported!", fs)
  | some (ctype, align) =>
    let fs1 : FS :=
      { fs with header := some (fs.header.getD "" ++ headerLines tensorName ctype (tsize td)) }
    let fs2 : FS :=
      if fs1.source.isSome then fs1
      else { fs1 with source := some "#include <stdint.h>\n" }
    let blk := sourceBlock frender ctype sect tensorName align td
    let fs3 : FS := { fs2 with source := some (fs2.source.getD "" ++ blk.1) }
    if blk.2 then .ok fs3 else .error ("OverflowError", fs3)

/-! ### Spec-side decoding

The spec's round-trip property speaks of "parsing the emitted initializer
back into numeric values (respecting the signed-hex convention for
int8/uint8)".  The decoders below are written from the spec's words: a
`-0x<hh>` literal denotes the negation of its hex magnitude, a `+0x<hh>`
literal the hex value itself, a decimal literal its value; literals are
separated by commas, and a trailing comma before the closing brace (legal
in a C initializer list) is tolerated. -/

/-- Value of a lowercase hexadecimal digit character. -/
def hexVal (c : Char) : Option Nat :=
  if '0' ≤ c ∧ c ≤ '9' then some (c.toNat - Char.toNat '0')
  else if 'a' ≤ c ∧ c ≤ 'f' then some (c.toNat - Char.toNat 'a' + 10)
  else none

/-- Value of a decimal digit character. -/
def decVal (c : Char) : Option Nat :=
  if '0' ≤ c ∧ c ≤ '9' then some (c.toNat - Char.toNat '0') else none

/-- Parser for one signed-hex byte literal, per the spec's convention:
`-0x<hh>` is the negation of the hex magnitude, `+0x<hh>` the hex value. -/
def parseByteTok : List Char → Option Int
  | '-' :: '0' :: 'x' :: [c1, c2] =>
    match hexVal c1, hexVal c2 with
    | some a, some b => some (-(Int.ofNat (16 * a + b)))
    | _, _ => none
  | '+' :: '0' :: 'x' :: [c1, c2] =>
    match hexVal c1, hexVal c2 with
    | some a, some b => some (Int.ofNat (16 * a + b))
    | _, _ => none
  | _ => none

/-- Accumulating decimal parser. -/
def parseDecTokAux (acc : Nat) : List Char → Option Nat
  | [] => some acc
  | c :: cs =>
    match decVal c with
    | some d => parseDecTokAux (10 * acc + d) cs
    | none => none

/-- Parser for one decimal literal (non-empty digit string). -/
def parseDecTok : List Char → Option Nat
  | [] => none
  | cs => parseDecTokAux 0 cs

/-- Splits a character list at every comma; always returns at least one
(possibly empty) token. -/
def splitCommas : List Char → List (List Char)
  | [] => [[]]
  | c :: rest =>
    if c = ',' then [] :: splitCommas rest
    else
      match splitCommas rest with
      | [] => [[c]]
      | t :: ts => (c :: t) :: ts

/-- Drops the empty token a trailing comma leaves behind (a trailing comma
is legal in a C initializer list); on an empty initializer this yields no
tokens at all. -/
def stripTrailingEmpty (toks : List (List Char)) : List (List Char) :=
  match toks.getLast? with
  | some [] => toks.dropLast
  | _ => toks

/-- The literal tokens of an initializer body: the comma-separated chunks,
with the empty chunk of a trailing comma removed. -/
def tokensOf (s : String) : List (List Char) :=
  stripTrailingEmpty (splitCommas s.data)

/-- Parses a whole initializer body with the given literal parser. -/
def parseInit (p : List Char → Option α) (s : String) : Option (List α) :=
  (tokensOf s).mapM p

/-! ### Claim-side rendering vocabulary -/

/-- The literal the spec says an int8/uint8 element must produce: for a
negative value, `-0x` followed by the hex pair of the two's-complement
magnitude; otherwise `+0x` followed by the hex pair of the raw byte. -/
def byteTok (v : Int) (raw : Nat) : String :=
  if v < 0 then "-0x" ++ hexPair (-v).toNat else "+0x" ++ hexPair raw

/-- Comma-separated join with no trailing comma. -/
def joinComma : List String → String
  | [] => ""
  | [t] => t
  | t :: ts => t ++ "," ++ joinComma ts

/-- Well-formed int8 data: every element is in the dtype's value range. -/
def WFi8 (es : List Int) : Prop := ∀ v ∈ es, -128 ≤ v ∧ v < 128

/-- Well-formed uint8 data: every element is in the dtype's value range. -/
def WFu8 (es : List Nat) : Prop := ∀ v ∈ es, v < 256

/-! ### Basic facts about digits and tokens -/

theorem hexVal_hexDigitChar : ∀ d < 16, hexVal (hexDigitChar d) = some d := by decide

theorem decVal_hexDigitChar : ∀ d < 10, decVal (hexDigitChar d) = some d := by decide

theorem hexDigitChar_ne_comma : ∀ d < 16, hexDigitChar d ≠ ',' := by decide

theorem hexPair_data (b : Nat) :
    (hexPair b).data = [hexDigitChar (b / 16 % 16), hexDigitChar (b % 16)] := rfl

theorem comma_not_mem_hexPair (b : Nat) : ',' ∉ (hexPair b).data := by
  rw [hexPair_data]
  intro hmem
  rcases List.mem_cons.mp hmem with h | hmem
  · exact hexDigitChar_ne_comma _ (Nat.mod_lt _ (by norm_num)) h.symm
  rcases List.mem_cons.mp hmem with h | hmem
  · exact hexDigitChar_ne_comma _ (Nat.mod_lt _ (by norm_num)) h.symm
  · simp at hmem

theorem hexPair_val (b : Nat) (hb : b < 256) :
    16 * (b / 16 % 16) + b % 16 = b := by omega

/-! ### Facts about the comma-splitting decoder -/

theorem splitCommas_ne_nil (cs : List Char) : splitCommas cs ≠ [] := by
  cases cs with
  | nil => simp [splitCommas]
  | cons c rest =>
    by_cases h : c = ','
    · simp [splitCommas, h]
    · rw [splitCommas, if_neg h]
      cases hs : splitCommas rest <;> simp

theorem splitCommas_of_not_mem (t : List Char) (h : ',' ∉ t) : splitCommas t = [t] := by
  induction t with
  | nil => rfl
  | cons c cs ih =>
    have hc : ¬ c = ',' := fun hc => h (hc ▸ List.mem_cons_self c cs)
    rw [splitCommas, if_neg hc, ih (fun hm => h (List.mem_cons_of_mem c hm))]

theorem splitCommas_append (t rest : List Char) (h : ',' ∉ t) :
    splitCommas (t ++ ',' :: rest) = t :: splitCommas rest := by
  induction t with
  | nil => simp [splitCommas]
  | cons c cs ih =>
    have hc : ¬ c = ',' := fun hc => h (hc ▸ List.mem_cons_self c cs)
    rw [List.cons_append, splitCommas, if_neg hc,
      ih (fun hm => h (List.mem_cons_of_mem c hm))]

theorem getLast?_mem {α : Type _} (l : List α) (a : α) (h : l.getLast? = some a) :
    a ∈ l := by
  induction l with
  | nil => simp at h
  | cons x xs ih =>
    cases xs with
    | nil =>
      simp [List.getLast?] at h
      simp [h]
    | cons y ys =>
      rw [List.getLast?_cons_cons] at h
      exact List.mem_cons_of_mem x (ih h)

theorem stripTrailingEmpty_of_ne (l : List (List Char))
    (h : ∀ t ∈ l, t ≠ []) : stripTrailingEmpty l = l := by
  rw [stripTrailingEmpty]
  cases hl : l.getLast? with
  | none => rfl
  | some t =>
    cases ht : t with
    | nil => exact absurd (ht ▸ hl) (fun hmem => h [] (getLast?_mem l [] hmem) rfl)
    | cons c cs => rfl

theorem stripTrailingEmpty_concat_nil (l : List (List Char)) :
    stripTrailingEmpty (l ++ [[]]) = l := by
  rw [stripTrailingEmpty, List.getLast?_concat, List.dropLast_concat]

theorem mapM_eq_some {α : Type _} (p : List Char → Option α) (g : α → List Char)
    (es : List α) (h : ∀ e ∈ es, p (g e) = some e) :
    (es.map g).mapM p = some es := by
  induction es with
  | nil => rfl
  | cons e es ih =>
    rw [List.map_cons, List.mapM_cons, h e (List.mem_cons_self e es),
      ih (fun x hx => h x (List.mem_cons_of_mem e hx))]
    rfl

/-! ### Token extraction from the two body shapes -/

theorem splitCommas_joinComma (toks : List String) (hne : toks ≠ [])
    (hc : ∀ t ∈ toks, ',' ∉ t.data) :
    splitCommas (joinComma toks).data = toks.map String.data := by
  induction toks with
  | nil => exact absurd rfl hne
  | cons t ts ih =>
    cases ts with
    | nil =>
      show splitCommas t.data = [t.data]
      exact splitCommas_of_not_mem t.data (hc t (List.mem_cons_self t []))
    | cons t2 ts2 =>
      have hjoin : (joinComma (t :: t2 :: ts2)).data
          = t.data ++ ',' :: (joinComma (t2 :: ts2)).data := by
        show ((t ++ ",") ++ joinComma (t2 :: ts2)).data = _
        rw [String.data_append, String.data_append, List.append_assoc]
        rfl
      rw [hjoin, splitCommas_append _ _ (hc t (List.mem_cons_self t _)),
        ih (by simp) (fun x hx => hc x (List.mem_cons_of_mem t hx))]
      simp

theorem tokensOf_joinComma (toks : List String)
    (hc : ∀ t ∈ toks, ',' ∉ t.data) (hne : ∀ t ∈ toks, t.data ≠ []) :
    tokensOf (joinComma toks) = toks.map String.data := by
  cases toks with
  | nil => rfl
  | cons t ts =>
    rw [tokensOf, splitCommas_joinComma (t :: ts) (by simp) hc]
    exact stripTrailingEmpty_of_ne _ (by
      intro x hx
      obtain ⟨s, hs, rfl⟩ := List.mem_map.mp hx
      exact hne s hs)

theorem splitCommas_writeEach {α : Type _} (f : α → String) (es : List α)
    (hc : ∀ e ∈ es, ',' ∉ (f e).data) :
    splitCommas (writeEach f es).data = es.map (fun e => (f e).data) ++ [[]] := by
  induction es with
  | nil => rfl
  | cons e es ih =>
    have hw : (writeEach f (e :: es)).data = (f e).data ++ ',' :: (writeEach f es).data := by
      show ((f e ++ ",") ++ writeEach f es).data = _
      rw [String.data_append, String.data_append, List.append_assoc]
      rfl
    rw [hw, splitCommas_append _ _ (hc e (List.mem_cons_self e es)),
      ih (fun x hx => hc x (List.mem_cons_of_mem e hx)), List.map_cons, List.cons_append]

theorem tokensOf_writeEach {α : Type _} (f : α → String) (es : List α)
    (hc : ∀ e ∈ es, ',' ∉ (f e).data) :
    tokensOf (writeEach f es) = es.map (fun e => (f e).data) := by
  rw [tokensOf, splitCommas_writeEach f es hc, stripTrailingEmpty_concat_nil]

theorem parseInit_joinComma {α : Type _} (p : List Char → Option α) (g : α → String)
    (es : List α) (hc : ∀ e ∈ es, ',' ∉ (g e).data)
    (hne : ∀ e ∈ es, (g e).data ≠ [])
    (hp : ∀ e ∈ es, p (g e).data = some e) :
    parseInit p (joinComma (es.map g)) = some es := by
  rw [parseInit, tokensOf_joinComma (es.map g)
      (by intro t ht; obtain ⟨e, he, rfl⟩ := List.mem_map.mp ht; exact hc e he)
      (by intro t ht; obtain ⟨e, he, rfl⟩ := List.mem_map.mp ht; exact hne e he),
    List.map_map]
  exact mapM_eq_some p (String.data ∘ g) es hp

theorem parseInit_writeEach {α : Type _} (p : List Char → Option α) (f : α → String)
    (es : List α) (hc : ∀ e ∈ es, ',' ∉ (f e).data)
    (hp : ∀ e ∈ es, p (f e).data = some e) :
    parseInit p (writeEach f es) = some es := by
  rw [parseInit, tokensOf_writeEach f es hc]
  exact mapM_eq_some p (fun e => (f e).data) es hp

/-! ### Decimal rendering round-trip -/

theorem decDigitsAux_lt (fuel : Nat) : ∀ n, ∀ d ∈ decDigitsAux fuel n, d < 10 := by
  induction fuel with
  | zero => intro n d hd; simp [decDigitsAux] at hd
  | succ fuel ih =>
    intro n d hd
    cases n with
    | zero => simp [decDigitsAux] at hd
    | succ m =>
      rw [decDigitsAux] at hd
      rcases List.mem_cons.mp hd with h | h
      · exact h ▸ Nat.mod_lt _ (by norm_num)
      · exact ih _ d h

theorem decDigitsAux_foldr (fuel : Nat) :
    ∀ n ≤ fuel, (decDigitsAux fuel n).foldr (fun d r => d + 10 * r) 0 = n := by
  induction fuel with
  | zero =>
    intro n hn
    interval_cases n
    rfl
  | succ fuel ih =>
    intro n hn
    cases n with
    | zero => rfl
    | succ m =>
      rw [decDigitsAux, List.foldr_cons,
        ih ((m + 1) / 10) (by
          have := Nat.div_lt_self (Nat.succ_pos m) (by norm_num : 1 < 10)
          omega)]
      exact Nat.mod_add_div (m + 1) 10

theorem decDigitsAux_ne_nil (m : Nat) : decDigitsAux (m + 1) (m + 1) ≠ [] := by
  rw [decDigitsAux]
  simp

theorem foldl_reverse_digits (ds : List Nat) :
    ∀ acc, ds.reverse.foldl (fun a d => 10 * a + d) acc
      = acc * 10 ^ ds.length + ds.foldr (fun d r => d + 10 * r) 0 := by
  induction ds with
  | nil => intro acc; simp
  | cons d ds ih =>
    intro acc
    rw [List.reverse_cons, List.foldl_append, ih acc]
    simp only [List.foldl_cons, List.foldl_nil, List.length_cons, List.foldr_cons]
    ring

theorem parseDecTokAux_digits (ds : List Nat) :
    ∀ acc, (∀ d ∈ ds, d < 10) →
      parseDecTokAux acc (ds.map hexDigitChar)
        = some (ds.foldl (fun a d => 10 * a + d) acc) := by
  induction ds with
  | nil => intro acc _; rfl
  | cons d ds ih =>
    intro acc h
    rw [List.map_cons, parseDecTokAux, decVal_hexDigitChar d (h d (List.mem_cons_self d ds)),
      List.foldl_cons]
    exact ih _ (fun x hx => h x (List.mem_cons_of_mem d hx))

theorem parseDecTok_decRender (n : Nat) : parseDecTok (decRender n).data = some n := by
  cases n with
  | zero => rfl
  | succ m =>
    rw [decRender, if_neg (Nat.succ_ne_zero m)]
    show parseDecTok ((decDigitsAux (m + 1) (m + 1)).reverse.map hexDigitChar) = some (m + 1)
    have hform : ∃ c cs, (decDigitsAux (m + 1) (m + 1)).reverse.map hexDigitChar = c :: cs := by
      cases hd : (decDigitsAux (m + 1) (m + 1)).reverse.map hexDigitChar with
      | nil =>
        exfalso
        apply decDigitsAux_ne_nil m
        have := List.map_eq_nil_iff.mp hd
        simpa using this
      | cons c cs => exact ⟨c, cs, rfl⟩
    obtain ⟨c, cs, hform⟩ := hform
    rw [hform]
    show parseDecTokAux 0 (c :: cs) = some (m + 1)
    rw [← hform, parseDecTokAux_digits _ 0 (by
      intro d hd
      exact decDigitsAux_lt (m + 1) (m + 1) d (List.mem_reverse.mp hd))]
    rw [foldl_reverse_digits _ 0, decDigitsAux_foldr (m + 1) (m + 1) le_rfl]
    simp

theorem comma_not_mem_decRender (n : Nat) : ',' ∉ (decRender n).data := by
  cases n with
  | zero => decide
  | succ m =>
    rw [decRender, if_neg (Nat.succ_ne_zero m)]
    intro hmem
    obtain ⟨d, hd, hchar⟩ := List.mem_map.mp hmem
    have hlt := decDigitsAux_lt (m + 1) (m + 1) d (List.mem_reverse.mp hd)
    exact hexDigitChar_ne_comma d (by omega) hchar

/-! ### Byte-literal facts -/

theorem byteLit_eq (v : Int) (raw : Nat) (h : -255 ≤ v) :
    byteLit v raw = some (byteTok v raw) := by
  rw [byteLit, byteTok]
  by_cases hv : v < 0
  · rw [if_pos hv, if_pos hv, toBytes1, if_pos ⟨by omega, by omega⟩]
    rfl
  · rw [if_neg hv, if_neg hv]

theorem byteTok_data_neg (v : Int) (hv : v < 0) :
    (byteTok v raw).data = '-' :: '0' :: 'x' :: (hexPair (-v).toNat).data := by
  rw [byteTok, if_pos hv, String.data_append]
  rfl

theorem byteTok_data_nonneg (v : Int) (raw : Nat) (hv : ¬ v < 0) :
    (byteTok v raw).data = '+' :: '0' :: 'x' :: (hexPair raw).data := by
  rw [byteTok, if_neg hv, String.data_append]
  rfl

theorem comma_not_mem_byteTok (v : Int) (raw : Nat) : ',' ∉ (byteTok v raw).data := by
  by_cases hv : v < 0
  · rw [byteTok_data_neg v hv]
    intro hmem
    simp only [List.mem_cons] at hmem
    rcases hmem with h | h | h | h
    · simp at h
    · simp at h
    · simp at h
    · exact comma_not_mem_hexPair _ h
  · rw [byteTok_data_nonneg v raw hv]
    intro hmem
    simp only [List.mem_cons] at hmem
    rcases hmem with h | h | h | h
    · simp at h
    · simp at h
    · simp at h
    · exact comma_not_mem_hexPair _ h

theorem byteTok_data_ne_nil (v : Int) (raw : Nat) : (byteTok v raw).data ≠ [] := by
  by_cases hv : v < 0
  · rw [byteTok_data_neg v hv]; simp
  · rw [byteTok_data_nonneg v raw hv]; simp

theorem parseByteTok_neg (b : Nat) (hb : b < 256) :
    parseByteTok ('-' :: '0' :: 'x' :: (hexPair b).data) = some (-(Int.ofNat b)) := by
  rw [hexPair_data]
  show parseByteTok ('-' :: '0' :: 'x' :: [hexDigitChar (b / 16 % 16), hexDigitChar (b % 16)])
      = some (-(Int.ofNat b))
  rw [parseByteTok, hexVal_hexDigitChar _ (Nat.mod_lt _ (by norm_num)),
    hexVal_hexDigitChar _ (Nat.mod_lt _ (by norm_num))]
  show some (-Int.ofNat (16 * (b / 16 % 16) + b % 16)) = some (-Int.ofNat b)
  rw [hexPair_val b hb]

theorem parseByteTok_pos (b : Nat) (hb : b < 256) :
    parseByteTok ('+' :: '0' :: 'x' :: (hexPair b).data) = some (Int.ofNat b) := by
  rw [hexPair_data]
  show parseByteTok ('+' :: '0' :: 'x' :: [hexDigitChar (b / 16 % 16), hexDigitChar (b % 16)])
      = some (Int.ofNat b)
  rw [parseByteTok, hexVal_hexDigitChar _ (Nat.mod_lt _ (by norm_num)),
    hexVal_hexDigitChar _ (Nat.mod_lt _ (by norm_num))]
  show some (Int.ofNat (16 * (b / 16 % 16) + b % 16)) = some (Int.ofNat b)
  rw [hexPair_val b hb]

theorem parseByteTok_byteTok_i8 (v : Int) (h1 : -128 ≤ v) (h2 : v < 128) :
    parseByteTok (byteTok v ((v % 256).toNat)).data = some v := by
  by_cases hv : v < 0
  · rw [byteTok_data_neg v hv, parseByteTok_neg _ (by omega)]
    congr 1
    rw [Int.ofNat_eq_natCast]
    omega
  · rw [byteTok_data_nonneg v _ hv, parseByteTok_pos _ (by omega)]
    congr 1
    rw [Int.ofNat_eq_natCast]
    omega

theorem parseByteTok_byteTok_u8 (v : Nat) (h : v < 256) :
    parseByteTok (byteTok (Int.ofNat v) (v % 256)).data = some (Int.ofNat v) := by
  have hv : ¬ (Int.ofNat v) < 0 := not_lt.mpr (Int.ofNat_nonneg v)
  rw [byteTok_data_nonneg _ _ hv, Nat.mod_eq_of_lt h, parseByteTok_pos _ h]

/-! ### The byte loop writes a comma-separated list with no trailing comma -/

theorem byteBodyAux_eq (pairs : List (Int × Nat)) :
    ∀ j count, j + pairs.length = count →
    (∀ p ∈ pairs, -255 ≤ p.1) →
    byteBodyAux count j pairs
      = (joinComma (pairs.map (fun p => byteTok p.1 p.2)), true) := by
  induction pairs with
  | nil => intro j count _ _; rfl
  | cons p rest ih =>
    intro j count hinv hges
    obtain ⟨v, raw⟩ := p
    rw [byteBodyAux, byteLit_eq v raw (hges (v, raw) (List.mem_cons_self _ rest))]
    cases rest with
    | nil =>
      have hj : ¬ 2 * j ≠ (count - 1) * 2 := by
        simp only [List.length_cons, List.length_nil] at hinv
        omega
      show (byteTok v raw ++ (if 2 * j ≠ (count - 1) * 2 then "," else "")
          ++ (byteBodyAux count (j + 1) []).1, (byteBodyAux count (j + 1) []).2)
        = (joinComma [byteTok v raw], true)
      rw [if_neg hj]
      show (byteTok v raw ++ "" ++ "", true) = (byteTok v raw, true)
      rw [String.append_empty, String.append_empty]
    | cons q rest2 =>
      have hj : 2 * j ≠ (count - 1) * 2 := by
        simp only [List.length_cons] at hinv
        omega
      have ih' := ih (j + 1) count (by simp only [List.length_cons] at hinv ⊢; omega)
          (fun x hx => hges x (List.mem_cons_of_mem _ hx))
      show (byteTok v raw ++ (if 2 * j ≠ (count - 1) * 2 then "," else "")
          ++ (byteBodyAux count (j + 1) (q :: rest2)).1,
          (byteBodyAux count (j + 1) (q :: rest2)).2)
        = (joinComma (byteTok v raw :: (q :: rest2).map (fun p => byteTok p.1 p.2)), true)
      rw [if_pos hj, ih']
      rfl

theorem initBody_i8_eq (frender : Nat → String) (es : List Int) (h : WFi8 es) :
    initBody frender (.i8 es)
      = (joinComma (es.map (fun v => byteTok v ((v % 256).toNat))), true) := by
  show byteBodyAux es.length 0 (bytePairsI8 es) = _
  rw [byteBodyAux_eq (bytePairsI8 es) 0 es.length (by simp [bytePairsI8])
      (by
        intro p hp
        obtain ⟨v, hv, rfl⟩ := List.mem_map.mp hp
        have := h v hv
        simp only
        omega)]
  rw [bytePairsI8, List.map_map]
  rfl

theorem initBody_u8_eq (frender : Nat → String) (es : List Nat) :
    initBody frender (.u8 es)
      = (joinComma (es.map (fun v => byteTok (Int.ofNat v) (v % 256))), true) := by
  show byteBodyAux es.length 0 (bytePairsU8 es) = _
  rw [byteBodyAux_eq (bytePairsU8 es) 0 es.length (by simp [bytePairsU8])
      (by
        intro p hp
        obtain ⟨v, hv, rfl⟩ := List.mem_map.mp hp
        simp only [Int.ofNat_eq_natCast]
        omega)]
  rw [bytePairsU8, List.map_map]
  rfl

/-! ### Claim theorems -/

/-- Claim C1: round-trip fidelity.  For every array of a supported element
kind, parsing the literal list emitted into the definition artifact back
into numeric values — interpreting `-0x<hh>` as the negation of the hex
magnitude and `+0x<hh>` as the hex value — yields exactly the original
flattened row-major element sequence.  For float32 the scalar-to-text
conversion is the array library's and is assumed invertible (`fparse`)
and comma-free, which numpy's shortest round-trip repr satisfies. -/
theorem C1_round_trip :
    (∀ (frender : Nat → String) (es : List Int), WFi8 es →
      parseInit parseByteTok (initBody frender (.i8 es)).1 = some es)
  ∧ (∀ (frender : Nat → String) (es : List Nat), WFu8 es →
      parseInit parseByteTok (initBody frender (.u8 es)).1 = some (es.map Int.ofNat))
  ∧ (∀ (frender : Nat → String) (es : List Nat),
      parseInit parseDecTok (initBody frender (.u32 es)).1 = some es)
  ∧ (∀ (frender : Nat → String) (fparse : List Char → Option Nat),
      (∀ x, fparse (frender x).data = some x) →
      (∀ x, ',' ∉ (frender x).data) →
      ∀ es : List Nat, parseInit fparse (initBody frender (.f32 es)).1 = some es) := by
  refine ⟨?_, ?_, ?_, ?_⟩
  · intro frender es h
    rw [initBody_i8_eq frender es h]
    exact parseInit_joinComma parseByteTok _ es
      (fun e _ => comma_not_mem_byteTok _ _)
      (fun e _ => byteTok_data_ne_nil _ _)
      (fun e he => parseByteTok_byteTok_i8 e (h e he).1 (h e he).2)
  · intro frender es h
    rw [initBody_u8_eq frender es]
    have hmaps : es.map (fun v => byteTok (Int.ofNat v) (v % 256))
        = (es.map Int.ofNat).map (fun i => byteTok i (i.toNat % 256)) := by
      rw [List.map_map]
      rfl
    rw [hmaps]
    exact parseInit_joinComma parseByteTok _ (es.map Int.ofNat)
      (fun e _ => comma_not_mem_byteTok _ _)
      (fun e _ => byteTok_data_ne_nil _ _)
      (fun i hi => by
        obtain ⟨v, hv, rfl⟩ := List.mem_map.mp hi
        exact parseByteTok_byteTok_u8 v (h v hv))
  · intro frender es
    exact parseInit_writeEach parseDecTok decRender es
      (fun e _ => comma_not_mem_decRender e)
      (fun e _ => parseDecTok_decRender e)
  · intro frender fparse hinv hcomma es
    exact parseInit_writeEach fparse frender es
      (fun e _ => hcomma e)
      (fun e _ => hinv e)

theorem C1_round_trip_witness :
    parseInit parseByteTok (initBody decRender (.i8 [-5, 7, -128])).1 = some [-5, 7, -128]
  ∧ parseInit parseByteTok (initBody decRender (.u8 [250, 0])).1
      = some [(250 : Int), (0 : Int)]
  ∧ parseInit parseDecTok (initBody decRender (.u32 [0, 1048576])).1 = some [0, 1048576]
  ∧ parseInit parseDecTok (initBody decRender (.f32 [3, 77])).1 = some [3, 77] :=
  ⟨C1_round_trip.1 decRender [-5, 7, -128] (by unfold WFi8; decide),
   C1_round_trip.2.1 decRender [250, 0] (by unfold WFu8; decide),
   C1_round_trip.2.2.1 decRender [0, 1048576],
   C1_round_trip.2.2.2 decRender parseDecTok parseDecTok_decRender
     comma_not_mem_decRender [3, 77]⟩

theorem joinComma_cons_cons (t t2 : String) (ts : List String) :
    (joinComma (t :: t2 :: ts)).data = t.data ++ ',' :: (joinComma (t2 :: ts)).data := by
  show ((t ++ ",") ++ joinComma (t2 :: ts)).data = _
  rw [String.data_append, String.data_append, List.append_assoc]
  rfl

theorem mem_joinComma (c : Char) (toks : List String) (h : c ∈ (joinComma toks).data) :
    c = ',' ∨ ∃ t ∈ toks, c ∈ t.data := by
  induction toks with
  | nil => simp [joinComma] at h
  | cons t ts ih =>
    cases ts with
    | nil => exact Or.inr ⟨t, List.mem_cons_self t [], h⟩
    | cons t2 ts2 =>
      rw [joinComma_cons_cons] at h
      rcases List.mem_append.mp h with h | h
      · exact Or.inr ⟨t, List.mem_cons_self t _, h⟩
      · rcases List.mem_cons.mp h with h | h
        · exact Or.inl h
        · rcases ih h with h | ⟨t', ht', hc⟩
          · exact Or.inl h
          · exact Or.inr ⟨t', List.mem_cons_of_mem t ht', hc⟩

theorem hexDigitChar_ne_minus : ∀ d < 16, hexDigitChar d ≠ '-' := by decide

theorem minus_not_mem_posTok (b : Nat) : '-' ∉ ("+0x" ++ hexPair b).data := by
  rw [String.data_append]
  intro h
  rcases List.mem_append.mp h with h | h
  · exact absurd h (by decide)
  · rw [hexPair_data] at h
    rcases List.mem_cons.mp h with h | h
    · exact hexDigitChar_ne_minus _ (Nat.mod_lt _ (by norm_num)) h.symm
    rcases List.mem_cons.mp h with h | h
    · exact hexDigitChar_ne_minus _ (Nat.mod_lt _ (by norm_num)) h.symm
    · simp at h

/-- Claim C2: sign-magnitude hex rendering for byte kinds.  The literal
tokens of an emitted int8 initializer are `-0x` plus the hex pair of the
two's-complement magnitude for negative elements and `+0x` plus the raw
byte's hex pair otherwise; a uint8 initializer's tokens are always
`+0x<hh>` of the element's byte, and no `-` occurs anywhere in it. -/
theorem C2_sign_magnitude_hex :
    (∀ (frender : Nat → String) (es : List Int), WFi8 es →
      tokensOf (initBody frender (.i8 es)).1
        = es.map (fun v => if v < 0 then ("-0x" ++ hexPair (-v).toNat).data
            else ("+0x" ++ hexPair v.toNat).data))
  ∧ (∀ (frender : Nat → String) (es : List Nat), WFu8 es →
      tokensOf (initBody frender (.u8 es)).1
        = es.map (fun v => ("+0x" ++ hexPair v).data))
  ∧ (∀ (frender : Nat → String) (es : List Nat), WFu8 es →
      '-' ∉ (initBody frender (.u8 es)).1.data) := by
  refine ⟨?_, ?_, ?_⟩
  · intro frender es h
    rw [initBody_i8_eq frender es h]
    show tokensOf (joinComma (es.map (fun v => byteTok v ((v % 256).toNat)))) = _
    rw [tokensOf_joinComma _
      (by intro t ht; obtain ⟨v, hv, rfl⟩ := List.mem_map.mp ht; exact comma_not_mem_byteTok _ _)
      (by intro t ht; obtain ⟨v, hv, rfl⟩ := List.mem_map.mp ht; exact byteTok_data_ne_nil _ _),
      List.map_map]
    refine List.map_congr_left ?_
    intro v hv
    obtain ⟨h1, h2⟩ := h v hv
    by_cases hneg : v < 0
    · simp only [Function.comp_apply, byteTok, if_pos hneg]
    · simp only [Function.comp_apply, byteTok, if_neg hneg]
      have : (v % 256).toNat = v.toNat := by omega
      rw [this]
  · intro frender es h
    rw [initBody_u8_eq frender es]
    show tokensOf (joinComma (es.map (fun v => byteTok (Int.ofNat v) (v % 256)))) = _
    rw [tokensOf_joinComma _
      (by intro t ht; obtain ⟨v, hv, rfl⟩ := List.mem_map.mp ht; exact comma_not_mem_byteTok _ _)
      (by intro t ht; obtain ⟨v, hv, rfl⟩ := List.mem_map.mp ht; exact byteTok_data_ne_nil _ _),
      List.map_map]
    refine List.map_congr_left ?_
    intro v hv
    have hnn : ¬ (Int.ofNat v) < 0 := not_lt.mpr (Int.ofNat_nonneg v)
    simp only [Function.comp_apply, byteTok, if_neg hnn]
    rw [Nat.mod_eq_of_lt (h v hv)]
  · intro frender es h
    rw [initBody_u8_eq frender es]
    show '-' ∉ (joinComma (es.map (fun v => byteTok (Int.ofNat v) (v % 256)))).data
    intro hmem
    rcases mem_joinComma '-' _ hmem with hc | ⟨t, ht, hc⟩
    · simp at hc
    · obtain ⟨v, hv, rfl⟩ := List.mem_map.mp ht
      have hnn : ¬ (Int.ofNat v) < 0 := not_lt.mpr (Int.ofNat_nonneg v)
      rw [byteTok, if_neg hnn] at hc
      exact minus_not_mem_posTok _ hc

theorem C2_sign_magnitude_hex_witness :
    tokensOf (initBody decRender (.i8 [-5, 5])).1
        = ([-5, 5] : List Int).map (fun v => if v < 0 then ("-0x" ++ hexPair (-v).toNat).data
            else ("+0x" ++ hexPair v.toNat).data)
  ∧ tokensOf (initBody decRender (.u8 [250])).1
        = ([250] : List Nat).map (fun v => ("+0x" ++ hexPair v).data)
  ∧ '-' ∉ (initBody decRender (.u8 [250])).1.data :=
  ⟨C2_sign_magnitude_hex.1 decRender [-5, 5] (by unfold WFi8; decide),
   C2_sign_magnitude_hex.2.1 decRender [250] (by unfold WFu8; decide),
   C2_sign_magnitude_hex.2.2 decRender [250] (by unfold WFu8; decide)⟩

theorem joinComma_data_ne_nil (t : String) (ts : List String) (h : t.data ≠ []) :
    (joinComma (t :: ts)).data ≠ [] := by
  cases ts with
  | nil => exact h
  | cons t2 ts2 =>
    rw [joinComma_cons_cons]
    intro hx
    rcases List.append_eq_nil.mp hx with ⟨_, h2⟩
    simp at h2

theorem joinComma_getLast?_mem (toks : List String)
    (hdata : ∀ t ∈ toks, t.data ≠ []) (hne : toks ≠ []) :
    ∃ t ∈ toks, (joinComma toks).data.getLast? = t.data.getLast? := by
  induction toks with
  | nil => exact absurd rfl hne
  | cons t ts ih =>
    cases ts with
    | nil => exact ⟨t, List.mem_cons_self t [], rfl⟩
    | cons t2 ts2 =>
      obtain ⟨t', ht', heq⟩ := ih (fun x hx => hdata x (List.mem_cons_of_mem _ hx)) (by simp)
      refine ⟨t', List.mem_cons_of_mem t ht', ?_⟩
      rw [joinComma_cons_cons, List.getLast?_append_of_ne_nil _ (by simp)]
      show ((([','] : List Char) ++ (joinComma (t2 :: ts2)).data).getLast?) = _
      rw [List.getLast?_append_of_ne_nil _
        (joinComma_data_ne_nil t2 ts2 (hdata t2 (List.mem_cons_of_mem t (List.mem_cons_self t2 ts2))))]
      exact heq

/-- Claim C3: trailing-comma suppression for byte kinds.  For every
non-empty int8 or uint8 array the emitted body is the comma-separated
join of the element literals with no trailing comma (the loop suppresses
the comma when the byte-pair index reaches `(count - 1) * 2`), so no
comma precedes the closing brace. -/
theorem C3_trailing_comma :
    (∀ (frender : Nat → String) (es : List Int), es ≠ [] → WFi8 es →
      (initBody frender (.i8 es)).1
          = joinComma (es.map (fun v => byteTok v ((v % 256).toNat)))
        ∧ (initBody frender (.i8 es)).1.data.getLast? ≠ some ',')
  ∧ (∀ (frender : Nat → String) (es : List Nat), es ≠ [] → WFu8 es →
      (initBody frender (.u8 es)).1
          = joinComma (es.map (fun v => byteTok (Int.ofNat v) (v % 256)))
        ∧ (initBody frender (.u8 es)).1.data.getLast? ≠ some ',') := by
  constructor
  · intro frender es hne h
    rw [initBody_i8_eq frender es h]
    refine ⟨rfl, ?_⟩
    obtain ⟨t, ht, heq⟩ := joinComma_getLast?_mem (es.map (fun v => byteTok v ((v % 256).toNat)))
      (by intro x hx; obtain ⟨v, hv, rfl⟩ := List.mem_map.mp hx; exact byteTok_data_ne_nil _ _)
      (fun hm => hne (List.map_eq_nil_iff.mp hm))
    show (joinComma _).data.getLast? ≠ some ','
    rw [heq]
    intro hlast
    obtain ⟨v, hv, rfl⟩ := List.mem_map.mp ht
    exact comma_not_mem_byteTok _ _ (getLast?_mem _ _ hlast)
  · intro frender es hne h
    rw [initBody_u8_eq frender es]
    refine ⟨rfl, ?_⟩
    obtain ⟨t, ht, heq⟩ := joinComma_getLast?_mem
      (es.map (fun v => byteTok (Int.ofNat v) (v % 256)))
      (by intro x hx; obtain ⟨v, hv, rfl⟩ := List.mem_map.mp hx; exact byteTok_data_ne_nil _ _)
      (fun hm => hne (List.map_eq_nil_iff.mp hm))
    show (joinComma _).data.getLast? ≠ some ','
    rw [heq]
    intro hlast
    obtain ⟨v, hv, rfl⟩ := List.mem_map.mp ht
    exact comma_not_mem_byteTok _ _ (getLast?_mem _ _ hlast)

theorem C3_trailing_comma_witness :
    ((initBody decRender (.i8 [-5, 7])).1
        = joinComma (([-5, 7] : List Int).map (fun v => byteTok v ((v % 256).toNat)))
      ∧ (initBody decRender (.i8 [-5, 7])).1.data.getLast? ≠ some ',')
  ∧ ((initBody decRender (.u8 [250, 3])).1
        = joinComma (([250, 3] : List Nat).map (fun v => byteTok (Int.ofNat v) (v % 256)))
      ∧ (initBody decRender (.u8 [250, 3])).1.data.getLast? ≠ some ',') :=
  ⟨C3_trailing_comma.1 decRender [-5, 7] (by decide) (by unfold WFi8; decide),
   C3_trailing_comma.2 decRender [250, 3] (by decide) (by unfold WFu8; decide)⟩

/-- Claim C4 as stated is false: for a single-element uint32 array the
sole literal is not immediately followed by the closing brace — the
float32/uint32 branch writes a comma after every element, the last one
included, so the emitted block for `[7]` is `...= \x7b7,\x7d;`. -/
theorem C4_single_element_counterexample :
    (sourceBlock decRender "uint32_t" "" "tensor" 16 (.u32 [7])).1
        = openingLine "uint32_t" "tensor" "" 16 ++ "7," ++ "\x7d;\n\n"
  ∧ ¬ (sourceBlock decRender "uint32_t" "" "tensor" 16 (.u32 [7])).1
        = openingLine "uint32_t" "tensor" "" 16 ++ "7" ++ "\x7d;\n\n" := by
  constructor
  · decide
  · decide

/-- Claim C4 (amended): for int8/uint8 a single-element array's
initializer holds exactly one literal token immediately followed by the
closing `\x7d;`; for float32/uint32 the sole literal is followed by a
comma and only then the closing `\x7d;`. -/
theorem C4_single_element :
    (∀ (frender : Nat → String) (ctype sect tn : String) (a : Nat) (v : Int),
      -128 ≤ v → v < 128 →
      (sourceBlock frender ctype sect tn a (.i8 [v])).1
        = openingLine ctype tn sect a ++ byteTok v ((v % 256).toNat) ++ "\x7d;\n\n")
  ∧ (∀ (frender : Nat → String) (ctype sect tn : String) (a : Nat) (b : Nat),
      b < 256 →
      (sourceBlock frender ctype sect tn a (.u8 [b])).1
        = openingLine ctype tn sect a ++ ("+0x" ++ hexPair b) ++ "\x7d;\n\n")
  ∧ (∀ (frender : Nat → String) (ctype sect tn : String) (a : Nat) (n : Nat),
      (sourceBlock frender ctype sect tn a (.u32 [n])).1
        = openingLine ctype tn sect a ++ (decRender n ++ ",") ++ "\x7d;\n\n")
  ∧ (∀ (frender : Nat → String) (ctype sect tn : String) (a : Nat) (x : Nat),
      (sourceBlock frender ctype sect tn a (.f32 [x])).1
        = openingLine ctype tn sect a ++ (frender x ++ ",") ++ "\x7d;\n\n") := by
  refine ⟨?_, ?_, ?_, ?_⟩
  · intro frender ctype sect tn a v h1 h2
    have hwf : WFi8 [v] := by
      intro x hx
      rcases List.mem_singleton.mp hx with rfl
      exact ⟨h1, h2⟩
    show openingLine ctype tn sect a ++ (initBody frender (.i8 [v])).1
        ++ (if (initBody frender (.i8 [v])).2 then "\x7d;\n\n" else "") = _
    rw [initBody_i8_eq frender [v] hwf]
    rfl
  · intro frender ctype sect tn a b hb
    have hnn : ¬ (Int.ofNat b) < 0 := not_lt.mpr (Int.ofNat_nonneg b)
    show openingLine ctype tn sect a ++ (initBody frender (.u8 [b])).1
        ++ (if (initBody frender (.u8 [b])).2 then "\x7d;\n\n" else "") = _
    rw [initBody_u8_eq frender [b]]
    show openingLine ctype tn sect a ++ joinComma [byteTok (Int.ofNat b) (b % 256)]
        ++ "\x7d;\n\n" = _
    rw [show joinComma [byteTok (Int.ofNat b) (b % 256)] = byteTok (Int.ofNat b) (b % 256) from rfl,
      byteTok, if_neg hnn, Nat.mod_eq_of_lt hb]
  · intro frender ctype sect tn a n
    show openingLine ctype tn sect a ++ (decRender n ++ "," ++ "") ++ "\x7d;\n\n" = _
    rw [String.append_empty]
  · intro frender ctype sect tn a x
    show openingLine ctype tn sect a ++ (frender x ++ "," ++ "") ++ "\x7d;\n\n" = _
    rw [String.append_empty]

theorem C4_single_element_witness :
    ((sourceBlock decRender "int8_t" "" "t" 16 (.i8 [-5])).1
        = openingLine "int8_t" "t" "" 16 ++ byteTok (-5) (((-5 : Int) % 256).toNat) ++ "\x7d;\n\n")
  ∧ ((sourceBlock decRender "uint8_t" "" "t" 16 (.u8 [250])).1
        = openingLine "uint8_t" "t" "" 16 ++ ("+0x" ++ hexPair 250) ++ "\x7d;\n\n") :=
  ⟨C4_single_element.1 decRender "int8_t" "" "t" 16 (-5) (by decide) (by decide),
   C4_single_element.2.1 decRender "uint8_t" "" "t" 16 250 (by decide)⟩

/-- Claim C5: unsupported-kind atomicity.  An array whose element kind is
outside the four supported ones makes `create_header_file` fail with the
unsupported-type assertion, and the error state is the input state
unchanged: no byte of either artifact is written and neither file is
created if absent. -/
theorem C5_unsupported_atomic :
    ∀ (frender : Nat → String) (name sect tn dn outputPath : String) (fs : FS),
      create_header_file frender name sect tn (.other dn) outputPath fs
        = .error ("Type " ++ dn ++ " is not supported!", fs) := by
  intro frender name sect tn dn outputPath fs
  rfl

/-- Claim C6: empty-array emission.  For every supported element kind an
array with zero elements produces the initializer `\x7b\x7d` — the block
appended to the definition artifact is the opening line immediately
followed by the closing `\x7d;`, and the token list of the (empty) body
is empty: no literals and no comma. -/
theorem C6_empty_array :
    ∀ (frender : Nat → String) (ctype sect tn : String) (a : Nat),
      ((sourceBlock frender ctype sect tn a (.f32 [])).1
          = openingLine ctype tn sect a ++ "\x7d;\n\n")
    ∧ ((sourceBlock frender ctype sect tn a (.i8 [])).1
          = openingLine ctype tn sect a ++ "\x7d;\n\n")
    ∧ ((sourceBlock frender ctype sect tn a (.u8 [])).1
          = openingLine ctype tn sect a ++ "\x7d;\n\n")
    ∧ ((sourceBlock frender ctype sect tn a (.u32 [])).1
          = openingLine ctype tn sect a ++ "\x7d;\n\n")
    ∧ tokensOf (initBody frender (.f32 [])).1 = []
    ∧ tokensOf (initBody frender (.i8 [])).1 = []
    ∧ tokensOf (initBody frender (.u8 [])).1 = []
    ∧ tokensOf (initBody frender (.u32 [])).1 = [] := by
  intro frender ctype sect tn a
  refine ⟨?_, ?_, ?_, ?_, rfl, rfl, rfl, rfl⟩ <;>
    · show openingLine ctype tn sect a ++ "" ++ "\x7d;\n\n" = _
      rw [String.append_empty]

/-- On success, `create_header_file` performs exactly one append to each
artifact: the header gains the two declaration lines, the source — created
with the include line when absent — gains the initializer block. -/
theorem create_ok_inv (frender : Nat → String) (name sect tn outputPath : String)
    (td : TensorData) (fs fs' : FS) (ctype : String) (a : Nat)
    (hta : typeAlign td = some (ctype, a))
    (hcr : create_header_file frender name sect tn td outputPath fs = .ok fs') :
    fs'.header = some (fs.header.getD "" ++ headerLines tn ctype (tsize td))
    ∧ fs'.source = some ((match fs.source with
        | none => "#include <stdint.h>\n"
        | some s => s) ++ (sourceBlock frender ctype sect tn a td).1)
    ∧ (initBody frender td).2 = true := by
  rw [create_header_file, hta] at hcr
  dsimp only at hcr
  by_cases hok : (sourceBlock frender ctype sect tn a td).2
  · rw [if_pos hok] at hcr
    cases hcr
    cases hs : fs.source with
    | none => exact ⟨by simp [hs], by simp [hs], hok⟩
    | some s => exact ⟨by simp [hs], by simp [hs], hok⟩
  · rw [if_neg hok] at hcr
    cases hcr

/-- The initializer block a successful call appends: the opening line,
the whole body, and the closing sequence. -/
theorem sourceBlock_eq_of_ok (frender : Nat → String) (ctype sect tn : String)
    (a : Nat) (td : TensorData) (hok : (initBody frender td).2 = true) :
    (sourceBlock frender ctype sect tn a td).1
      = openingLine ctype tn sect a ++ (initBody frender td).1 ++ "\x7d;\n\n" := by
  show openingLine ctype tn sect a ++ (initBody frender td).1
      ++ (if (initBody frender td).2 then "\x7d;\n\n" else "") = _
  rw [hok]
  rfl

/-- Claim C7: section-clause gating.  On a successful emission, when the
section argument is the empty string the opening line carries only the
`aligned(...)` clause; when it is a non-empty string `s`, it carries
`section("s")` with `s` verbatim together with the aligned clause. -/
theorem C7_section_gating :
    ∀ (frender : Nat → String) (name tn outputPath : String) (td : TensorData)
      (fs fs' : FS) (ctype : String) (a : Nat) (sect : String),
      typeAlign td = some (ctype, a) →
      create_header_file frender name sect tn td outputPath fs = .ok fs' →
      fs'.source = some ((match fs.source with
          | none => "#include <stdint.h>\n"
          | some s => s)
        ++ (if sect = "" then
              ctype ++ " " ++ tn ++ "[] __attribute__((aligned("
                ++ decRender a ++ "))) = \x7b"
            else
              ctype ++ " " ++ tn ++ "[] __attribute__((section(\"" ++ sect
                ++ "\"), aligned(" ++ decRender a ++ "))) = \x7b")
        ++ (initBody frender td).1 ++ "\x7d;\n\n") := by
  intro frender name tn outputPath td fs fs' ctype a sect hta hcr
  obtain ⟨_, hsrc, hok⟩ := create_ok_inv frender name sect tn outputPath td fs fs' ctype a hta hcr
  rw [hsrc, sourceBlock_eq_of_ok frender ctype sect tn a td hok]
  have hop : openingLine ctype tn sect a
      = (if sect = "" then
            ctype ++ " " ++ tn ++ "[] __attribute__((aligned("
              ++ decRender a ++ "))) = \x7b"
          else
            ctype ++ " " ++ tn ++ "[] __attribute__((section(\"" ++ sect
              ++ "\"), aligned(" ++ decRender a ++ "))) = \x7b") := by
    by_cases hs : sect = ""
    · rw [openingLine, if_neg (by simp [hs]), if_pos hs]
    · rw [openingLine, if_pos hs, if_neg hs]
  rw [hop]
  simp only [String.append_assoc]

theorem C7_section_gating_witness :
    (FS.mk (some "#define t_len 1\nextern uint8_t t[t_len];\n")
        (some "#include <stdint.h>\nuint8_t t[] __attribute__((aligned(16))) = \x7b+0xfa\x7d;\n\n")).source
      = some ((match (none : Option String) with
          | none => "#include <stdint.h>\n"
          | some s => s)
        ++ (if ("" : String) = "" then
              "uint8_t" ++ " " ++ "t" ++ "[] __attribute__((aligned("
                ++ decRender 16 ++ "))) = \x7b"
            else
              "uint8_t" ++ " " ++ "t" ++ "[] __attribute__((section(\"" ++ ""
                ++ "\"), aligned(" ++ decRender 16 ++ "))) = \x7b")
        ++ (initBody decRender (.u8 [250])).1 ++ "\x7d;\n\n") :=
  C7_section_gating decRender "data" "t" "out" (.u8 [250]) ⟨none, none⟩
    (FS.mk (some "#define t_len 1\nextern uint8_t t[t_len];\n")
        (some "#include <stdint.h>\nuint8_t t[] __attribute__((aligned(16))) = \x7b+0xfa\x7d;\n\n"))
    "uint8_t" 16 "" rfl rfl

/-- Claim C8: kind-to-(type name, alignment) mapping.  float32 resolves to
`float`/32, int8 to `int8_t`/16, uint8 to `uint8_t`/16, uint32 to
`uint32_t`/16; on success the resolved type name appears in the extern
declaration appended to the declaration artifact and the resolved
alignment in the `aligned(...)` clause of the definition artifact. -/
theorem C8_kind_mapping :
    (∀ es, typeAlign (TensorData.f32 es) = some ("float", 32))
  ∧ (∀ es, typeAlign (TensorData.i8 es) = some ("int8_t", 16))
  ∧ (∀ es, typeAlign (TensorData.u8 es) = some ("uint8_t", 16))
  ∧ (∀ es, typeAlign (TensorData.u32 es) = some ("uint32_t", 16))
  ∧ (∀ (frender : Nat → String) (name sect tn outputPath : String) (td : TensorData)
       (fs fs' : FS) (ctype : String) (a : Nat),
      typeAlign td = some (ctype, a) →
      create_header_file frender name sect tn td outputPath fs = .ok fs' →
      fs'.header = some (fs.header.getD ""
          ++ ("#define " ++ tn ++ "_len " ++ decRender (tsize td) ++ "\n"
            ++ "extern " ++ ctype ++ " " ++ tn ++ "[" ++ tn ++ "_len];\n"))
      ∧ ∃ pre rest, fs'.source
          = some (pre ++ ("aligned(" ++ decRender a ++ "))) = \x7b") ++ rest)) := by
  refine ⟨fun es => rfl, fun es => rfl, fun es => rfl, fun es => rfl, ?_⟩
  intro frender name sect tn outputPath td fs fs' ctype a hta hcr
  obtain ⟨hhead, hsrc, hok⟩ :=
    create_ok_inv frender name sect tn outputPath td fs fs' ctype a hta hcr
  refine ⟨hhead, ?_⟩
  rw [hsrc, sourceBlock_eq_of_ok frender ctype sect tn a td hok]
  by_cases hs : sect = ""
  · refine ⟨(match fs.source with | none => "#include <stdint.h>\n" | some s => s)
        ++ (ctype ++ " " ++ tn ++ "[] __attribute__(("),
      (initBody frender td).1 ++ "\x7d;\n\n", ?_⟩
    rw [openingLine, if_neg (by simp [hs])]
    rw [show ("[] __attribute__((aligned(" : String) = "[] __attribute__((" ++ "aligned(" from rfl]
    simp only [String.append_assoc]
  · refine ⟨(match fs.source with | none => "#include <stdint.h>\n" | some s => s)
        ++ (ctype ++ " " ++ tn ++ "[] __attribute__((section(\"" ++ sect ++ "\"), "),
      (initBody frender td).1 ++ "\x7d;\n\n", ?_⟩
    rw [openingLine, if_pos hs]
    rw [show ("\"), aligned(" : String) = "\"), " ++ "aligned(" from rfl]
    simp only [String.append_assoc]

theorem C8_kind_mapping_witness :
    (FS.mk (some "#define t_len 1\nextern uint8_t t[t_len];\n")
        (some "#include <stdint.h>\nuint8_t t[] __attribute__((aligned(16))) = \x7b+0xfa\x7d;\n\n")).header
      = some ((FS.mk none none).header.getD ""
          ++ ("#define " ++ "t" ++ "_len " ++ decRender (tsize (.u8 [250])) ++ "\n"
            ++ "extern " ++ "uint8_t" ++ " " ++ "t" ++ "[" ++ "t" ++ "_len];\n"))
    ∧ ∃ pre rest,
        (FS.mk (some "#define t_len 1\nextern uint8_t t[t_len];\n")
          (some "#include <stdint.h>\nuint8_t t[] __attribute__((aligned(16))) = \x7b+0xfa\x7d;\n\n")).source
          = some (pre ++ ("aligned(" ++ decRender 16 ++ "))) = \x7b") ++ rest) :=
  C8_kind_mapping.2.2.2.2 decRender "data" "" "t" "out" (.u8 [250]) (FS.mk none none)
    (FS.mk (some "#define t_len 1\nextern uint8_t t[t_len];\n")
        (some "#include <stdint.h>\nuint8_t t[] __attribute__((aligned(16))) = \x7b+0xfa\x7d;\n\n"))
    "uint8_t" 16 rfl rfl

/-- Claim C9: append-only accumulation.  On every successful emission the
previous contents of both artifacts are preserved as a prefix: the
declaration artifact grows by exactly the two lines of `headerLines`, the
definition artifact receives the include line only when it is first
created, and a second identical call appends a second macro/extern pair
and a second initializer block rather than overwriting. -/
theorem C9_append_only :
    ∀ (frender : Nat → String) (name sect tn outputPath : String) (td : TensorData)
      (ctype : String) (a : Nat), typeAlign td = some (ctype, a) →
    (∀ fs fs', create_header_file frender name sect tn td outputPath fs = .ok fs' →
      fs'.header = some (fs.header.getD "" ++ headerLines tn ctype (tsize td))
      ∧ fs'.source = some ((match fs.source with
          | none => "#include <stdint.h>\n" | some s => s)
        ++ (sourceBlock frender ctype sect tn a td).1))
  ∧ (∀ fs fs' fs'',
      create_header_file frender name sect tn td outputPath fs = .ok fs' →
      create_header_file frender name sect tn td outputPath fs' = .ok fs'' →
      fs''.header = some (fs.header.getD "" ++ headerLines tn ctype (tsize td)
          ++ headerLines tn ctype (tsize td))
      ∧ fs''.source = some ((match fs.source with
          | none => "#include <stdint.h>\n" | some s => s)
        ++ (sourceBlock frender ctype sect tn a td).1
        ++ (sourceBlock frender ctype sect tn a td).1)) := by
  intro frender name sect tn outputPath td ctype a hta
  constructor
  · intro fs fs' hcr
    obtain ⟨h1, h2, _⟩ := create_ok_inv frender name sect tn outputPath td fs fs' ctype a hta hcr
    exact ⟨h1, h2⟩
  · intro fs fs' fs'' hcr1 hcr2
    obtain ⟨h1, h2, _⟩ := create_ok_inv frender name sect tn outputPath td fs fs' ctype a hta hcr1
    obtain ⟨h1', h2', _⟩ := create_ok_inv frender name sect tn outputPath td fs' fs'' ctype a hta hcr2
    constructor
    · rw [h1', h1]
      simp
    · rw [h2', h2]

theorem C9_append_only_witness :
    (FS.mk (some "#define t_len 1\nextern uint8_t t[t_len];\n#define t_len 1\nextern uint8_t t[t_len];\n")
        (some "#include <stdint.h>\nuint8_t t[] __attribute__((aligned(16))) = \x7b+0xfa\x7d;\n\nuint8_t t[] __attribute__((aligned(16))) = \x7b+0xfa\x7d;\n\n")).header
      = some ((FS.mk none none).header.getD "" ++ headerLines "t" "uint8_t" (tsize (.u8 [250]))
          ++ headerLines "t" "uint8_t" (tsize (.u8 [250])))
    ∧ (FS.mk (some "#define t_len 1\nextern uint8_t t[t_len];\n#define t_len 1\nextern uint8_t t[t_len];\n")
        (some "#include <stdint.h>\nuint8_t t[] __attribute__((aligned(16))) = \x7b+0xfa\x7d;\n\nuint8_t t[] __attribute__((aligned(16))) = \x7b+0xfa\x7d;\n\n")).source
      = some ((match (FS.mk none none).source with
          | none => "#include <stdint.h>\n" | some s => s)
        ++ (sourceBlock decRender "uint8_t" "" "t" 16 (.u8 [250])).1
        ++ (sourceBlock decRender "uint8_t" "" "t" 16 (.u8 [250])).1) :=
  (C9_append_only decRender "data" "" "t" "out" (.u8 [250]) "uint8_t" 16 rfl).2
    (FS.mk none none)
    (FS.mk (some "#define t_len 1\nextern uint8_t t[t_len];\n")
        (some "#include <stdint.h>\nuint8_t t[] __attribute__((aligned(16))) = \x7b+0xfa\x7d;\n\n"))
    (FS.mk (some "#define t_len 1\nextern uint8_t t[t_len];\n#define t_len 1\nextern uint8_t t[t_len];\n")
        (some "#include <stdint.h>\nuint8_t t[] __attribute__((aligned(16))) = \x7b+0xfa\x7d;\n\nuint8_t t[] __attribute__((aligned(16))) = \x7b+0xfa\x7d;\n\n"))
    rfl rfl

/-- Claim C10: most-negative byte edge case.  For every int8 value in
[-128, -1] the negative path's one-byte conversion of the magnitude
`(~v) + 1 = -v` succeeds, and for -128 the emitted literal is `-0x80`. -/
theorem C10_most_negative :
    (∀ (v : Int) (raw : Nat), -128 ≤ v → v ≤ -1 →
      byteLit v raw = some ("-0x" ++ hexPair (-v).toNat))
  ∧ byteLit (-128) 128 = some "-0x80" := by
  constructor
  · intro v raw h1 h2
    rw [byteLit, if_pos (by omega), toBytes1, if_pos ⟨by omega, by omega⟩]
    rfl
  · decide

theorem C10_most_negative_witness :
    byteLit (-128) 0 = some ("-0x" ++ hexPair (-(-128 : Int)).toNat) :=
  C10_most_negative.1 (-128) 0 (by decide) (by decide)

end Gemmini
